import Mathlib

/-
Verification of the jagged-array list layer (ListOffsetArray) of the
awkward-1.0 reduction core.

The embedding follows src/unnamed/part_001 (ListOffsetArray.cpp).  The list
layer holds an offsets index and a child content; the child is abstract here
and is accessed only through the Content trait of the specification
(length, branch_depth, carry, getitem_range_nowrap, reduce_next, sort_next,
argsort_next).  Machine integers are modelled as Int (the bookkeeping in the
claims never overflows i64); an Index is modelled by its visible window, a
List Int.

The cpu-kernel bodies (awkward_listoffsetarray_reduce_* and friends) are not
among the source files - only their declarations in the reducers header are -
so each of those definitions is modelled from the specification and says so
in its doc comment.
-/

namespace Awkward

/-- Errors surfaced by the list-layer methods: std::invalid_argument thrown at
entry, std::runtime_error for internal invariant failures, and kernel-style
failures routed through util::handle_error carrying the offending index. -/
inductive AErr where
  | invalidArgument (msg : String)
  | runtimeError (msg : String)
  | failure (msg : String) (id : Int)
deriving DecidableEq

/-- Width tag of an offsets index: the template parameter T of
ListOffsetArrayOf<T> (int32_t, uint32_t or int64_t). -/
inductive IndexForm where
  | i32
  | u32
  | i64
deriving DecidableEq

/-- The Content trait contract consumed by the list layer (spec section 6).
The child content has abstract type C; the list layer only ever calls these
operations on it.  R is the (abstract) reducer type, forwarded untouched. -/
structure ContentOps (R C : Type) where
  length : C → Int
  branchDepth : C → Bool × Int
  carry : C → List Int → C
  getitemRangeNowrap : C → Int → Int → C
  reduceNext : C → R → Int → List Int → List Int → Int → Bool → Bool → C
  sortNext : C → Int → List Int → List Int → Int → Bool → Bool → Bool → C
  argsortNext : C → Int → List Int → List Int → Int → Bool → Bool → Bool → C

/-- A ListOffsetArrayOf<T>: width tag, offsets index and child content. -/
structure ListOffsetArray (C : Type) where
  form : IndexForm
  offsets : List Int
  content : C
deriving DecidableEq

/-- Output contents assembled by the list-layer methods: either a child result
taken as-is, or one of the wrappers the source builds around child results
(ListOffsetArray64, ListArray64, RegularArray). -/
inductive OutContent (C : Type) where
  | base (c : C)
  | listOffsetArray64 (offsets : List Int) (content : OutContent C)
  | listArray64 (starts stops : List Int) (content : OutContent C)
  | regularArray (content : OutContent C) (size : Int)
deriving DecidableEq

variable {R C X : Type}

/-- Modelled from the spec: util::make_starts, the first N entries of an
offsets index of length N+1 (sublist i starts at offsets[i]). -/
def make_starts (offsets : List Int) : List Int :=
  offsets.dropLast

/-- Modelled from the spec: util::make_stops, the last N entries of an
offsets index of length N+1 (sublist i stops at offsets[i+1]). -/
def make_stops (offsets : List Int) : List Int :=
  offsets.drop 1

/-- Length of sublist i of an offsets index: offsets[i+1] - offsets[i]. -/
def sublistLen (offsets : List Int) (i : Nat) : Int :=
  offsets.getD (i + 1) 0 - offsets.getD i 0

/-- Modelled from the spec: the compact_offsets kernel
(awkward_listoffsetarray_compact_offsets64, body not among the source files);
spec 4.2: output of the same length with out[i] = offsets[i] - offsets[0]. -/
def awkward_listoffsetarray_compact_offsets64 (offsets : List Int) : List Int :=
  offsets.map (fun x => x - offsets.headI)

/-- Modelled from the spec: the global_startstop kernel scans offsets and
returns (offsets[0], offsets[N]) (spec 4.2). -/
def awkward_listoffsetarray_reduce_global_startstop_64
    (offsets : List Int) : Int × Int :=
  (offsets.headI, offsets.getLastD 0)

/-- Sublist lengths of an offsets index, as a list of Nats (structurally valid
offsets are non-decreasing, so the differences are non-negative). -/
def sublistLens (offsets : List Int) : List Nat :=
  (List.range (offsets.length - 1)).map (fun i => (sublistLen offsets i).toNat)

/-- Helper for the local_nextparents kernel: the flattened list that gives
every element of the block of length lens[i] the parent base + i. -/
def localNextparentsAux : List Nat → Nat → List Int
  | [], _ => []
  | n :: rest, i => List.replicate n (i : Int) ++ localNextparentsAux rest (i + 1)

/-- Modelled from the spec: the local_nextparents kernel
(awkward_listoffsetarray_reduce_local_nextparents_64, body not among the
source files); spec 4.3: every element of sublist i receives parent i, and
the output has length offsets[N] - offsets[0]. -/
def awkward_listoffsetarray_reduce_local_nextparents_64
    (offsets : List Int) : List Int :=
  localNextparentsAux (sublistLens offsets) 0

/-- Modelled from the spec: the local_outoffsets kernel
(awkward_listoffsetarray_reduce_local_outoffsets_64, body not among the
source files); spec 4.3: outoffsets[j+1] - outoffsets[j] equals the count of
parents[k] = j, requiring parents non-decreasing; realized by the cumulative
counts outoffsets[j] = count of parents[k] < j. -/
def awkward_listoffsetarray_reduce_local_outoffsets_64
    (parents : List Int) (outlength : Nat) : List Int :=
  (List.range (outlength + 1)).map
    (fun (j : Nat) => ((parents.filter (fun p => p < (j : Int))).length : Int))

/-- Modelled from the spec: the maxcount/offsetscopy kernel
(awkward_listoffsetarray_reduce_nonlocal_maxcount_offsetscopy_64, body not
among the source files); spec 4.4 step 1: maxcount is the maximum sublist
length, and the offsets are copied into a working buffer. -/
def awkward_listoffsetarray_reduce_nonlocal_maxcount_offsetscopy_64
    (offsets : List Int) : Int × List Int :=
  (((List.range (offsets.length - 1)).map (fun i => sublistLen offsets i)).foldl
      max 0,
   offsets)

/-- Modelled from the spec: the nextcarry output of the nonlocal preparenext
kernel (awkward_listoffsetarray_reduce_nonlocal_preparenext_64, body not among
the source files); spec 4.4 step 2: a permutation of element positions grouped
first by position-within-sublist c = 0, 1, ... and within each c block by
outer parent ascending.  In every use in this core the parents vector is
non-decreasing over sublists (spec section 3), so sublist-index order realizes
the parent order; entry for (c, sublist i) is the flat position offsets[i]+c. -/
def nonlocal_nextcarry (offsets : List Int) (maxcount : Nat) : List Int :=
  (List.range maxcount).flatMap (fun (c : Nat) =>
    ((List.range (offsets.length - 1)).filter
        (fun i => decide ((c : Int) < sublistLen offsets i))).map
      (fun i => offsets.getD i 0 + (c : Int)))

/-- Modelled from the spec: the nextparents output of the nonlocal preparenext
kernel; spec 4.4 step 2: for position k of nextcarry, the outer parent that
owns the sublist of origin. -/
def nonlocal_nextparents (offsets parents : List Int) (maxcount : Nat) :
    List Int :=
  (List.range maxcount).flatMap (fun (c : Nat) =>
    ((List.range (offsets.length - 1)).filter
        (fun i => decide ((c : Int) < sublistLen offsets i))).map
      (fun i => parents.getD i 0))

/-- Modelled from the spec: the maxnextparents output of the nonlocal
preparenext kernel; spec 4.4 step 2: the maximum value appearing in
nextparents (the kernel initializes it to 0). -/
def nonlocal_maxnextparents (nextparents : List Int) : Int :=
  nextparents.foldl max 0

/-- Modelled from the spec: the distincts output of the nonlocal preparenext
kernel; spec section 3 and 4.4 step 2: a maxcount-by-outlength buffer in which
position j*maxcount + c holds the flat index of the c-th element of (the first
sublist of) outer group j when that slot exists, and the sentinel -1 when
group j has no sublist with a c-th element. -/
def nonlocal_distincts (offsets parents : List Int)
    (maxcount outlength : Nat) : List Int :=
  (List.range (maxcount * outlength)).map (fun idx =>
    let j := idx / maxcount
    let c := idx % maxcount
    match (List.range (offsets.length - 1)).find?
        (fun i => decide (parents.getD i 0 = (j : Int)) &&
                  decide ((c : Int) < sublistLen offsets i)) with
    | some i => offsets.getD i 0 + (c : Int)
    | none => -1)

/-- Modelled from the spec: the nextstarts kernel
(awkward_listoffsetarray_reduce_nonlocal_nextstarts_64, body not among the
source files); spec 4.4 step 3: over nextparents, nextstarts[p] is the first k
with nextparents[k] = p, for p in [0, maxnextparents]. -/
def awkward_listoffsetarray_reduce_nonlocal_nextstarts_64
    (nextparents : List Int) (maxnextparents : Int) : List Int :=
  (List.range (maxnextparents.toNat + 1)).map
    (fun (p : Nat) => (nextparents.findIdx (fun q => decide (q = (p : Int))) :
      Int))

/-- Modelled from the spec: the findgaps kernel
(awkward_listoffsetarray_reduce_nonlocal_findgaps_64, body not among the
source files); spec 4.4 step 5: gaps[j] counts the preceding outer groups that
contributed zero sublists (empty groups). -/
def awkward_listoffsetarray_reduce_nonlocal_findgaps_64
    (parents : List Int) (outlength : Nat) : List Int :=
  (List.range outlength).map (fun (j : Nat) =>
    (((List.range j).filter
      (fun (i : Nat) => !parents.contains (i : Int))).length : Int))

/-- Modelled from the spec: the outstartsstops kernel
(awkward_listoffsetarray_reduce_nonlocal_outstartsstops_64, body not among the
source files); spec 4.4 step 6: slot (j, c) is present iff
distincts[j*maxcount + c] is not the sentinel -1, and the present slots of
group j become the interval [outstarts[j], outstops[j]) in the running
enumeration of present slots.  The gaps input accompanies distincts per the
spec; in this cumulative coordinate system groups with no contribution
receive empty intervals, which realizes the gap relocation. -/
def awkward_listoffsetarray_reduce_nonlocal_outstartsstops_64
    (distincts gaps : List Int) (maxcount outlength : Nat) :
    List Int × List Int :=
  let presentCount := fun (j : Nat) =>
    ((List.range maxcount).filter
      (fun c => decide (distincts.getD (j * maxcount + c) (-1) ≠ -1))).length
  ((List.range outlength).map (fun j =>
      (((List.range j).map presentCount).sum : Int)),
   (List.range outlength).map (fun j =>
      ((((List.range j).map presentCount).sum + presentCount j : Nat) : Int)))

/-- Insert index i into an index list kept sorted by the key function. -/
def argsortInsert (key : Nat → Int) (i : Nat) : List Nat → List Nat
  | [] => [i]
  | j :: rest =>
      if key i < key j then i :: j :: rest else j :: argsortInsert key i rest

/-- Sort an index list by the key function (insertion sort). -/
def argsortList (key : Nat → Int) : List Nat → List Nat
  | [] => []
  | i :: rest => argsortInsert key i (argsortList key rest)

/-- Modelled from the spec: the local_preparenext kernel
(awkward_listoffsetarray_local_preparenext_64, body not among the source
files); spec 4.7: the inverse (arg-sort) permutation of the given index,
which reorders sorted content back into original-sublist order. -/
def awkward_listoffsetarray_local_preparenext_64 (fromindex : List Int) :
    List Int :=
  (argsortList (fun i => fromindex.getD i 0) (List.range fromindex.length)).map
    (fun i => (i : Int))

/-- Modelled from the spec: the broadcast carry kernel
(awkward_listarray_broadcast_tooffsets64, body not among the source files).
It produces the carry index realizing each target sublist from the
corresponding source sublist; in the one use relevant here (spec 4.6 step 1,
with target offsets compacted from the source offsets) the source and target
sublist lengths agree, so target sublist i contributes the source positions
starts[i], starts[i]+1, ..., starts[i]+(offsets[i+1]-offsets[i])-1. -/
def awkward_listarray_broadcast_tooffsets64
    (offsets starts : List Int) : List Int :=
  (List.range (offsets.length - 1)).flatMap (fun i =>
    (List.range (sublistLen offsets i).toNat).map
      (fun (k : Nat) => starts.getD i 0 + (k : Int)))

/-- Embedding of the ListOffsetArrayOf<T> constructor (source part_001 lines
179-191): an offsets index of length 0 is rejected with
std::invalid_argument. -/
def ListOffsetArray.make (form : IndexForm) (offsets : List Int)
    (content : C) : Except AErr (ListOffsetArray C) :=
  if offsets.length = 0 then
    .error (.invalidArgument "ListOffsetArray offsets length must be at least 1")
  else
    .ok ⟨form, offsets, content⟩

/-- Embedding of ListOffsetArrayOf<T>::length (source part_001 lines 525-529):
offsets_.length() - 1. -/
def ListOffsetArray.lengthOf (a : ListOffsetArray C) : Int :=
  (a.offsets.length : Int) - 1

/-- Embedding of ListOffsetArrayOf<T>::getitem_at_nowrap (source part_001
lines 592-621): an empty range (offsets[at] = offsets[at+1]) is normalized to
[0, 0) before the three structural checks run; each failure carries the
offending index. -/
def getitem_at_nowrap (ops : ContentOps R C) (a : ListOffsetArray C)
    (at_ : Nat) : Except AErr C :=
  let start0 := a.offsets.getD at_ 0
  let stop0 := a.offsets.getD (at_ + 1) 0
  let lencontent := ops.length a.content
  let start := if start0 = stop0 then 0 else start0
  let stop := if start0 = stop0 then 0 else stop0
  if start < 0 then
    .error (.failure "offsets[i] < 0" (at_ : Int))
  else if start > stop then
    .error (.failure "offsets[i] > offsets[i + 1]" (at_ : Int))
  else if stop > lencontent then
    .error (.failure
      "offsets[i] != offsets[i + 1] and offsets[i + 1] > len(content)"
      (at_ : Int))
  else
    .ok (ops.getitemRangeNowrap a.content start stop)

/-- Embedding of ListOffsetArrayOf<T>::compact_offsets64 (source part_001
lines 217-250): the int64_t specialization returns the offsets unchanged when
start_at_zero is false or offsets[0] is already 0; otherwise, and for the
32-bit forms always, the compact_offsets kernel output. -/
def compact_offsets64 (a : ListOffsetArray C) (start_at_zero : Bool) :
    List Int :=
  if a.form = .i64 ∧ (start_at_zero = false ∨ a.offsets.headI = 0) then
    a.offsets
  else
    awkward_listoffsetarray_compact_offsets64 a.offsets

/-- Embedding of ListOffsetArrayOf<T>::broadcast_tooffsets64 (source part_001
lines 252-294): rejects offsets that are empty or do not start at 0, rejects
a longer target, then carries the content by the broadcast kernel index and
wraps it in a ListOffsetArray64 with the given offsets. -/
def broadcast_tooffsets64 (ops : ContentOps R C) (a : ListOffsetArray C)
    (offsets : List Int) : Except AErr (ListOffsetArray C) :=
  if offsets.length = 0 ∨ offsets.headI ≠ 0 then
    .error (.invalidArgument
      "broadcast_tooffsets64 can only be used with offsets that start at 0")
  else if (offsets.length : Int) - 1 > (a.offsets.length : Int) - 1 then
    .error (.invalidArgument "cannot broadcast ListOffsetArray to the given length")
  else
    let starts := make_starts a.offsets
    let nextcarry := awkward_listarray_broadcast_tooffsets64 offsets starts
    let nextcontent := ops.carry a.content nextcarry
    .ok ⟨.i64, offsets, nextcontent⟩

/-- Embedding of ListOffsetArrayOf<T>::toListOffsetArray64 (source part_001
lines 317-329): for T = int64_t with start_at_zero false or offsets already
starting at 0, a shallow copy; otherwise compact the offsets and broadcast to
them. -/
def toListOffsetArray64 (ops : ContentOps R C) (a : ListOffsetArray C)
    (start_at_zero : Bool) : Except AErr (ListOffsetArray C) :=
  if a.form = .i64 ∧ (start_at_zero = false ∨ a.offsets.headI = 0) then
    .ok a
  else
    broadcast_tooffsets64 ops a (compact_offsets64 a start_at_zero)

/-- Embedding of ListOffsetArrayOf<int64_t>::reduce_next (source part_001
lines 1406-1550).  branch_depth of a list layer is the content branch flag
with depth + 1 (ListOffsetForm::branch_depth, source part_001 lines 122-127).
The non-local branch (content does not branch and negaxis equals this depth)
checks offsets.length - 1 = parents.length, prepares nextcarry, nextparents,
maxnextparents, distincts and nextstarts, carries the content by nextcarry,
recurses with negaxis - 1 and outlength maxnextparents + 1, and assembles a
ListArray64 from the outstartsstops kernel output, wrapped in a length-1
RegularArray when keepdims.  The local branch trims the content to the global
range, recurses with the same negaxis, local nextparents and outlength
offsets.length - 1, and wraps the result in a ListOffsetArray64 with the
local_outoffsets kernel output. -/
def reduce_next64 (ops : ContentOps R C) (offsets : List Int) (content : C)
    (reducer : R) (negaxis : Int) (starts parents : List Int)
    (outlength : Nat) (mask keepdims : Bool) : Except AErr (OutContent C) :=
  if (ops.branchDepth content).1 = false ∧
      negaxis = (ops.branchDepth content).2 + 1 then
    if (offsets.length : Int) - 1 ≠ (parents.length : Int) then
      .error (.runtimeError "offsets_.length() - 1 != parents.length()")
    else
      let maxcount :=
        (awkward_listoffsetarray_reduce_nonlocal_maxcount_offsetscopy_64
          offsets).1.toNat
      let nextcarry := nonlocal_nextcarry offsets maxcount
      let nextparents := nonlocal_nextparents offsets parents maxcount
      let maxnextparents := nonlocal_maxnextparents nextparents
      let distincts := nonlocal_distincts offsets parents maxcount outlength
      let nextstarts :=
        awkward_listoffsetarray_reduce_nonlocal_nextstarts_64 nextparents
          maxnextparents
      let nextcontent := ops.carry content nextcarry
      let outcontent := ops.reduceNext nextcontent reducer (negaxis - 1)
        nextstarts nextparents (maxnextparents + 1) mask false
      let gaps :=
        awkward_listoffsetarray_reduce_nonlocal_findgaps_64 parents outlength
      let oss :=
        awkward_listoffsetarray_reduce_nonlocal_outstartsstops_64 distincts
          gaps maxcount outlength
      let out := OutContent.listArray64 oss.1 oss.2 (OutContent.base outcontent)
      .ok (if keepdims then OutContent.regularArray out 1 else out)
  else
    let gs := awkward_listoffsetarray_reduce_global_startstop_64 offsets
    let nextparents :=
      awkward_listoffsetarray_reduce_local_nextparents_64 offsets
    let trimmed := ops.getitemRangeNowrap content gs.1 gs.2
    let outcontent := ops.reduceNext trimmed reducer negaxis
      (make_starts offsets) nextparents ((offsets.length : Int) - 1) mask
      keepdims
    let outoffsets :=
      awkward_listoffsetarray_reduce_local_outoffsets_64 parents outlength
    .ok (OutContent.listOffsetArray64 outoffsets (OutContent.base outcontent))

/-- Embedding of ListOffsetArrayOf<T>::reduce_next (source part_001 lines
1552-1568) together with the template dispatch: the int64_t specialization is
taken directly, any other width first converts with
toListOffsetArray64(start_at_zero = true) and recurses. -/
def reduce_next (ops : ContentOps R C) (a : ListOffsetArray C) (reducer : R)
    (negaxis : Int) (starts parents : List Int) (outlength : Nat)
    (mask keepdims : Bool) : Except AErr (OutContent C) :=
  match a.form with
  | .i64 =>
      reduce_next64 ops a.offsets a.content reducer negaxis starts parents
        outlength mask keepdims
  | _ =>
      Except.bind (toListOffsetArray64 ops a true) (fun a64 =>
        reduce_next64 ops a64.offsets a64.content reducer negaxis starts
          parents outlength mask keepdims)

/-- Embedding of ListOffsetArrayOf<int64_t>::sort_next (source part_001 lines
1704-1835).  The non-local branch carries the content by nextcarry, sorts it
one level down, applies the local_preparenext inverse permutation outcarry to
the sorted content, and wraps the result in a ListOffsetArray64 with the
original offsets (so every output sublist spans the same offsets range as the
corresponding input sublist); keepdims wraps in a RegularArray of size
offsets.length - 1 (the length of the list just built). -/
def sort_next64 (ops : ContentOps R C) (offsets : List Int) (content : C)
    (negaxis : Int) (starts parents : List Int) (outlength : Nat)
    (ascending stable keepdims : Bool) : Except AErr (OutContent C) :=
  if (ops.branchDepth content).1 = false ∧
      negaxis = (ops.branchDepth content).2 + 1 then
    if (offsets.length : Int) - 1 ≠ (parents.length : Int) then
      .error (.runtimeError "offsets_.length() - 1 != parents.length()")
    else
      let maxcount :=
        (awkward_listoffsetarray_reduce_nonlocal_maxcount_offsetscopy_64
          offsets).1.toNat
      let nextcarry := nonlocal_nextcarry offsets maxcount
      let nextparents := nonlocal_nextparents offsets parents maxcount
      let maxnextparents := nonlocal_maxnextparents nextparents
      let nextstarts :=
        awkward_listoffsetarray_reduce_nonlocal_nextstarts_64 nextparents
          maxnextparents
      let nextcontent := ops.carry content nextcarry
      let outcontent := ops.sortNext nextcontent (negaxis - 1) nextstarts
        nextparents (ops.length nextcontent) ascending stable false
      let outcarry := awkward_listoffsetarray_local_preparenext_64 nextcarry
      let outcontent2 := ops.carry outcontent outcarry
      let out := OutContent.listOffsetArray64 offsets (OutContent.base outcontent2)
      .ok (if keepdims then
             OutContent.regularArray out ((offsets.length : Int) - 1)
           else out)
  else
    let gs := awkward_listoffsetarray_reduce_global_startstop_64 offsets
    let nextparents :=
      awkward_listoffsetarray_reduce_local_nextparents_64 offsets
    let trimmed := ops.getitemRangeNowrap content gs.1 gs.2
    let outcontent := ops.sortNext trimmed negaxis (make_starts offsets)
      nextparents ((offsets.length : Int) - 1) ascending stable false
    let out := OutContent.listOffsetArray64 offsets (OutContent.base outcontent)
    .ok (if keepdims then
           OutContent.regularArray out ((offsets.length : Int) - 1)
         else out)

/-- Embedding of ListOffsetArrayOf<int64_t>::argsort_next (source part_001
lines 1855-1985): identical orchestration to sort_next except that the
non-local recursion passes outlength maxnextparents + 1. -/
def argsort_next64 (ops : ContentOps R C) (offsets : List Int) (content : C)
    (negaxis : Int) (starts parents : List Int) (outlength : Nat)
    (ascending stable keepdims : Bool) : Except AErr (OutContent C) :=
  if (ops.branchDepth content).1 = false ∧
      negaxis = (ops.branchDepth content).2 + 1 then
    if (offsets.length : Int) - 1 ≠ (parents.length : Int) then
      .error (.runtimeError "offsets_.length() - 1 != parents.length()")
    else
      let maxcount :=
        (awkward_listoffsetarray_reduce_nonlocal_maxcount_offsetscopy_64
          offsets).1.toNat
      let nextcarry := nonlocal_nextcarry offsets maxcount
      let nextparents := nonlocal_nextparents offsets parents maxcount
      let maxnextparents := nonlocal_maxnextparents nextparents
      let nextstarts :=
        awkward_listoffsetarray_reduce_nonlocal_nextstarts_64 nextparents
          maxnextparents
      let nextcontent := ops.carry content nextcarry
      let outcontent := ops.argsortNext nextcontent (negaxis - 1) nextstarts
        nextparents (maxnextparents + 1) ascending stable false
      let outcarry := awkward_listoffsetarray_local_preparenext_64 nextcarry
      let outcontent2 := ops.carry outcontent outcarry
      let out := OutContent.listOffsetArray64 offsets (OutContent.base outcontent2)
      .ok (if keepdims then
             OutContent.regularArray out ((offsets.length : Int) - 1)
           else out)
  else
    let gs := awkward_listoffsetarray_reduce_global_startstop_64 offsets
    let nextparents :=
      awkward_listoffsetarray_reduce_local_nextparents_64 offsets
    let trimmed := ops.getitemRangeNowrap content gs.1 gs.2
    let outcontent := ops.argsortNext trimmed negaxis (make_starts offsets)
      nextparents ((offsets.length : Int) - 1) ascending stable false
    let out := OutContent.listOffsetArray64 offsets (OutContent.base outcontent)
    .ok (if keepdims then
           OutContent.regularArray out ((offsets.length : Int) - 1)
         else out)

/-- Embedding of the entry validation of ListOffsetArrayOf<T>::combinations
(source part_001 lines 1602-1684): n < 1 is rejected with
std::invalid_argument before anything else runs.  The three axis branches
build their output through kernels and array classes outside the source
files, so the remainder of the method is an arbitrary continuation. -/
def combinations (rest : Int → Bool → Int → Int → Except AErr X) (n : Int)
    (replacement : Bool) (toaxis depth : Int) : Except AErr X :=
  if n < 1 then
    .error (.invalidArgument "in combinations, n must be at least 1")
  else
    rest n replacement toaxis depth

/-- Embedding of the entry validation of
ListOffsetArrayOf<T>::offsets_and_flattened (source part_001 lines 814-821):
toaxis (the non-negative wrapped axis) equal to the current depth is rejected
with std::invalid_argument.  The other branches use machinery outside the
source files, so the remainder is an arbitrary continuation. -/
def offsets_and_flattened (rest : Int → Int → Except AErr X)
    (toaxis depth : Int) : Except AErr X :=
  if toaxis = depth then
    .error (.invalidArgument "axis=0 not allowed for flatten")
  else
    rest toaxis depth

/-- Executable form of the non-decreasing predicate on an integer list (the
spec requires the parents vector fed to local_outoffsets to be
non-decreasing). -/
def isNonDecreasing : List Int → Bool
  | [] => true
  | [_] => true
  | a :: b :: rest => decide (a ≤ b) && isNonDecreasing (b :: rest)

/-- A concrete Content instantiation (a flat integer leaf) used to evaluate
the theorems on closed inputs. -/
def listOps : ContentOps Unit (List Int) where
  length c := (c.length : Int)
  branchDepth _ := (false, 1)
  carry c idx := idx.map (fun k => c.getD k.toNat 0)
  getitemRangeNowrap c a b := (c.take b.toNat).drop a.toNat
  reduceNext c _ _ _ _ _ _ _ := c
  sortNext c _ _ _ _ _ _ _ := c
  argsortNext c _ _ _ _ _ _ _ := c

/-! Helper lemmas about the list combinators used by the kernels. -/

theorem getD_range_map (f : Nat → Int) (n j : Nat) (d : Int) (h : j < n) :
    ((List.range n).map f).getD j d = f j := by
  simp [List.getD_eq_getElem?_getD, List.getElem?_map, List.getElem?_range, h]

theorem getD_append_lt (l l' : List Int) (i : Nat) (d : Int)
    (h : i < l.length) : (l ++ l').getD i d = l.getD i d := by
  simp [List.getD_eq_getElem?_getD, List.getElem?_append_left h]

theorem getD_append_ge (l l' : List Int) (i : Nat) (d : Int)
    (h : l.length ≤ i) : (l ++ l').getD i d = l'.getD (i - l.length) d := by
  simp [List.getD_eq_getElem?_getD, List.getElem?_append_right h]

theorem getD_replicate_lt (n i : Nat) (x d : Int) (h : i < n) :
    (List.replicate n x).getD i d = x := by
  simp [List.getD_eq_getElem?_getD, List.getElem?_replicate, h]

theorem getD_map_lt (f : Int → Int) (l : List Int) (i : Nat) (d : Int)
    (h : i < l.length) : (l.map f).getD i d = f (l.getD i d) := by
  simp [List.getD_eq_getElem?_getD, List.getElem?_map,
    List.getElem?_eq_getElem h]

theorem count_filter_lt_succ (l : List Int) (j : Int) :
    (l.filter (fun p => decide (p < j + 1))).length =
      (l.filter (fun p => decide (p < j))).length +
      (l.filter (fun p => decide (p = j))).length := by
  induction l with
  | nil => simp
  | cons p rest ih =>
    by_cases h1 : p < j
    · have h2 : p < j + 1 := by omega
      have h3 : ¬(p = j) := by omega
      simp [List.filter_cons, h1, h2, h3, ih]
      omega
    · by_cases h2 : p = j
      · have h3 : p < j + 1 := by omega
        simp [List.filter_cons, h1, h2, h3, ih]
        omega
      · have h3 : ¬(p < j + 1) := by omega
        simp [List.filter_cons, h1, h2, h3, ih]

theorem localNextparentsAux_getD (lens : List Nat) :
    ∀ (base i k : Nat), i < lens.length → k < lens.getD i 0 →
      (localNextparentsAux lens base).getD ((lens.take i).sum + k) 0 =
        ((base + i : Nat) : Int) := by
  induction lens with
  | nil => intro base i k hi _; simp at hi
  | cons n rest ih =>
    intro base i k hi hk
    cases i with
    | zero =>
      have hk' : k < n := by simpa using hk
      simp only [List.take_zero, List.sum_nil, Nat.zero_add,
        localNextparentsAux]
      rw [getD_append_lt _ _ _ _ (by simpa using hk'),
        getD_replicate_lt _ _ _ _ hk']
      simp
    | succ i' =>
      have hi' : i' < rest.length := by simp at hi; omega
      have hk' : k < rest.getD i' 0 := by simpa using hk
      simp only [localNextparentsAux, List.take_succ_cons, List.sum_cons]
      rw [getD_append_ge _ _ _ _ (by simp; omega)]
      have harith : n + (rest.take i').sum + k -
          (List.replicate n ((base : Nat) : Int)).length =
          (rest.take i').sum + k := by simp; omega
      rw [harith, ih (base + 1) i' k hi' hk']
      congr 1
      omega

/-- The two outstartsstops outputs both have length outlength. -/
theorem outstartsstops_length (distincts gaps : List Int)
    (maxcount outlength : Nat) :
    (awkward_listoffsetarray_reduce_nonlocal_outstartsstops_64 distincts gaps
        maxcount outlength).1.length = outlength ∧
    (awkward_listoffsetarray_reduce_nonlocal_outstartsstops_64 distincts gaps
        maxcount outlength).2.length = outlength := by
  constructor <;>
    simp [awkward_listoffsetarray_reduce_nonlocal_outstartsstops_64]

/-! The claims. -/

/-- C9: every constructed ListOffsetArray satisfies offsets.length ≥ 1: the
constructor rejects an offsets index of length 0 with an invalid-argument
error, and a successfully constructed array has length() equal to
offsets.length - 1, the number of sublists of an offsets index of length
N+1. -/
theorem constructor_offsets_invariant (form : IndexForm) (offsets : List Int)
    (content : C) :
    (offsets.length = 0 →
      ListOffsetArray.make form offsets content =
        .error (.invalidArgument
          "ListOffsetArray offsets length must be at least 1")) ∧
    (∀ a : ListOffsetArray C,
      ListOffsetArray.make form offsets content = .ok a →
        1 ≤ a.offsets.length ∧
        a.lengthOf = (a.offsets.length : Int) - 1) := by
  constructor
  · intro h
    simp [ListOffsetArray.make, h]
  · intro a ha
    by_cases h : offsets.length = 0
    · rw [ListOffsetArray.make, if_pos h] at ha
      cases ha
    · rw [ListOffsetArray.make, if_neg h] at ha
      cases ha
      have hp := Nat.pos_of_ne_zero h
      refine ⟨?_, rfl⟩
      show 1 ≤ offsets.length
      omega

/-- Witness for C9 at concrete inputs: the empty offsets index is rejected
and a three-entry index yields a two-sublist array. -/
theorem constructor_offsets_invariant_witness :
    (ListOffsetArray.make (C := Int) .i64 [] 7 =
      .error (.invalidArgument
        "ListOffsetArray offsets length must be at least 1")) ∧
    (1 ≤ (⟨.i64, [0, 3, 5], 7⟩ : ListOffsetArray Int).offsets.length ∧
      (⟨.i64, [0, 3, 5], 7⟩ : ListOffsetArray Int).lengthOf =
        (((⟨.i64, [0, 3, 5], 7⟩ : ListOffsetArray Int)).offsets.length : Int)
          - 1) :=
  ⟨(constructor_offsets_invariant .i64 [] (7 : Int)).1 rfl,
   (constructor_offsets_invariant .i64 [0, 3, 5] (7 : Int)).2
     ⟨.i64, [0, 3, 5], 7⟩ rfl⟩

/-- C6: the compact_offsets kernel keeps the length, subtracts offsets[0]
pointwise, always yields a result starting at zero, is idempotent, and the
int64_t method returns the original offsets unchanged when they already start
at zero. -/
theorem compact_offsets_spec (offsets : List Int) (c : C)
    (h : 1 ≤ offsets.length) :
    (awkward_listoffsetarray_compact_offsets64 offsets).length =
      offsets.length ∧
    (∀ i : Nat, i < offsets.length →
      (awkward_listoffsetarray_compact_offsets64 offsets).getD i 0 =
        offsets.getD i 0 - offsets.headI) ∧
    (awkward_listoffsetarray_compact_offsets64 offsets).headI = 0 ∧
    awkward_listoffsetarray_compact_offsets64
        (awkward_listoffsetarray_compact_offsets64 offsets) =
      awkward_listoffsetarray_compact_offsets64 offsets ∧
    (offsets.headI = 0 →
      compact_offsets64 (⟨.i64, offsets, c⟩ : ListOffsetArray C) true =
        offsets) := by
  have hhead : (awkward_listoffsetarray_compact_offsets64 offsets).headI = 0 := by
    cases offsets with
    | nil => simp at h
    | cons a t => simp [awkward_listoffsetarray_compact_offsets64, List.headI]
  refine ⟨?_, ?_, hhead, ?_, ?_⟩
  · simp [awkward_listoffsetarray_compact_offsets64]
  · intro i hi
    exact getD_map_lt _ _ _ _ hi
  · conv_lhs =>
      rw [awkward_listoffsetarray_compact_offsets64, hhead]
    simp
  · intro h0
    simp [compact_offsets64, h0]

/-- Witness for C6 at concrete inputs: compacting [3, 5] starts at zero and
is idempotent, and the int64_t method on zero-based offsets is the
identity. -/
theorem compact_offsets_spec_witness :
    (awkward_listoffsetarray_compact_offsets64 [3, 5]).headI = 0 ∧
    awkward_listoffsetarray_compact_offsets64
        (awkward_listoffsetarray_compact_offsets64 [3, 5]) =
      awkward_listoffsetarray_compact_offsets64 [3, 5] ∧
    compact_offsets64 (⟨.i64, [0, 2], 7⟩ : ListOffsetArray Int) true =
      [0, 2] :=
  ⟨(compact_offsets_spec [3, 5] (7 : Int) (by decide)).2.2.1,
   (compact_offsets_spec [3, 5] (7 : Int) (by decide)).2.2.2.1,
   (compact_offsets_spec [0, 2] (7 : Int) (by decide)).2.2.2.2 rfl⟩

/-- C8: argument misuse is rejected at entry with a descriptive
invalid-argument message and no output is produced: combinations with n < 1,
broadcast_tooffsets64 with an empty or non-zero-started offsets index, and
flatten (offsets_and_flattened) requested at the current depth (wrapped
axis 0). -/
theorem entry_checks_spec (ops : ContentOps R C) (a : ListOffsetArray C)
    (rest1 : Int → Bool → Int → Int → Except AErr X)
    (rest2 : Int → Int → Except AErr X) (n : Int) (replacement : Bool)
    (caxis cdepth toaxis depth : Int) (offsets : List Int)
    (hn : n < 1) (hoff : offsets.length = 0 ∨ offsets.headI ≠ 0)
    (hax : toaxis = depth) :
    combinations rest1 n replacement caxis cdepth =
      .error (.invalidArgument "in combinations, n must be at least 1") ∧
    broadcast_tooffsets64 ops a offsets =
      .error (.invalidArgument
        "broadcast_tooffsets64 can only be used with offsets that start at 0") ∧
    offsets_and_flattened rest2 toaxis depth =
      .error (.invalidArgument "axis=0 not allowed for flatten") := by
  refine ⟨?_, ?_, ?_⟩
  · rw [combinations, if_pos hn]
  · rw [broadcast_tooffsets64, if_pos hoff]
  · rw [offsets_and_flattened, if_pos hax]

/-- Witness for C8 at concrete inputs: n = 0, offsets starting at 1, and
flatten at the current depth are all rejected. -/
theorem entry_checks_spec_witness :
    combinations (fun _ _ _ _ => Except.ok ()) 0 false 1 0 =
      .error (.invalidArgument "in combinations, n must be at least 1") ∧
    broadcast_tooffsets64 listOps ⟨.i64, [0, 1], [5]⟩ [1, 2] =
      .error (.invalidArgument
        "broadcast_tooffsets64 can only be used with offsets that start at 0") ∧
    offsets_and_flattened (fun _ _ => Except.ok ()) 0 0 =
      .error (.invalidArgument "axis=0 not allowed for flatten") :=
  entry_checks_spec listOps ⟨.i64, [0, 1], [5]⟩ (fun _ _ _ _ => Except.ok ())
    (fun _ _ => Except.ok ()) 0 false 1 0 0 0 [1, 2] (by decide)
    (Or.inr (by decide)) rfl

/-- C10: when offsets[i] = offsets[i+1], getitem_at_nowrap succeeds and
returns the content range [0, 0), raising none of the structural errors, even
when the shared offset value is negative or exceeds the content length: the
empty sublist is normalized to [0, 0) before the validity checks. -/
theorem getitem_at_nowrap_empty_ok (ops : ContentOps R C)
    (a : ListOffsetArray C) (at_ : Nat) (hlen : 0 ≤ ops.length a.content)
    (h : a.offsets.getD at_ 0 = a.offsets.getD (at_ + 1) 0) :
    getitem_at_nowrap ops a at_ = .ok (ops.getitemRangeNowrap a.content 0 0) := by
  have h3 : ¬(ops.length a.content < 0) := not_lt.mpr hlen
  have h4 : a.offsets[at_]?.getD 0 = a.offsets[at_ + 1]?.getD 0 := by
    simpa [List.getD_eq_getElem?_getD] using h
  simp [getitem_at_nowrap, h4, h3]

/-- Witness for C10 at a concrete input: offsets [7, 7] over an empty content
(the shared value 7 exceeds the content length 0, and is also compared
against 0) still yields the empty range. -/
theorem getitem_at_nowrap_empty_ok_witness :
    (0 : Int) ≤ listOps.length [] ∧
    (([7, 7] : List Int).getD 0 0 = ([7, 7] : List Int).getD 1 0) ∧
    getitem_at_nowrap listOps ⟨.i64, [7, 7], []⟩ 0 = .ok [] :=
  ⟨by decide, by decide,
   (getitem_at_nowrap_empty_ok listOps ⟨.i64, [7, 7], []⟩ 0 (by decide)
      (by decide)).trans rfl⟩

/-- C7 is false as stated: at offsets [-5, -5] the entry offsets[0] = -5 < 0
is structurally invalid at position 0, yet getitem_at_nowrap(0) succeeds and
returns the empty range (the empty sublist is normalized to [0, 0) before any
validity check). -/
theorem getitem_at_nowrap_claim7_counterexample :
    getitem_at_nowrap listOps ⟨.i64, [-5, -5], []⟩ 0 = .ok [] ∧
    ([-5, -5] : List Int).getD 0 0 < 0 := by
  constructor
  · rfl
  · decide

/-- C7 (amended): when offsets[i] ≠ offsets[i+1], getitem_at_nowrap fails
fatally with the offending index i whenever offsets[i] < 0, offsets[i] >
offsets[i+1], or offsets[i+1] > content.length (checked in that order), and
otherwise returns the content range [offsets[i], offsets[i+1)); when
offsets[i] = offsets[i+1] the sublist is normalized to [0, 0) first and no
structural error is raised for it. -/
theorem getitem_at_nowrap_error_spec (ops : ContentOps R C)
    (a : ListOffsetArray C) (at_ : Nat)
    (hne : a.offsets.getD at_ 0 ≠ a.offsets.getD (at_ + 1) 0) :
    (a.offsets.getD at_ 0 < 0 →
      getitem_at_nowrap ops a at_ =
        .error (.failure "offsets[i] < 0" (at_ : Int))) ∧
    (0 ≤ a.offsets.getD at_ 0 →
      a.offsets.getD (at_ + 1) 0 < a.offsets.getD at_ 0 →
      getitem_at_nowrap ops a at_ =
        .error (.failure "offsets[i] > offsets[i + 1]" (at_ : Int))) ∧
    (0 ≤ a.offsets.getD at_ 0 →
      a.offsets.getD at_ 0 ≤ a.offsets.getD (at_ + 1) 0 →
      ops.length a.content < a.offsets.getD (at_ + 1) 0 →
      getitem_at_nowrap ops a at_ =
        .error (.failure
          "offsets[i] != offsets[i + 1] and offsets[i + 1] > len(content)"
          (at_ : Int))) ∧
    (0 ≤ a.offsets.getD at_ 0 →
      a.offsets.getD at_ 0 ≤ a.offsets.getD (at_ + 1) 0 →
      a.offsets.getD (at_ + 1) 0 ≤ ops.length a.content →
      getitem_at_nowrap ops a at_ =
        .ok (ops.getitemRangeNowrap a.content (a.offsets.getD at_ 0)
          (a.offsets.getD (at_ + 1) 0))) := by
  unfold getitem_at_nowrap
  simp only [if_neg hne]
  refine ⟨?_, ?_, ?_, ?_⟩
  · intro h1
    rw [if_pos h1]
  · intro h1 h2
    rw [if_neg (by omega), if_pos (by omega)]
  · intro h1 h2 h3
    rw [if_neg (by omega), if_neg (by omega), if_pos (by omega)]
  · intro h1 h2 h3
    rw [if_neg (by omega), if_neg (by omega), if_neg (by omega)]

/-- Witness for the amended C7 at a concrete input: offsets [3, 1] are
non-monotonic at position 0 and the retrieval fails with that index. -/
theorem getitem_at_nowrap_error_spec_witness :
    (([3, 1] : List Int).getD 0 0 ≠ ([3, 1] : List Int).getD 1 0) ∧
    getitem_at_nowrap listOps ⟨.i64, [3, 1], [9, 9, 9]⟩ 0 =
      .error (.failure "offsets[i] > offsets[i + 1]" 0) :=
  ⟨by decide,
   (getitem_at_nowrap_error_spec listOps ⟨.i64, [3, 1], [9, 9, 9]⟩ 0
      (by decide)).2.1 (by decide) (by decide)⟩

/-- C3: in the non-local branch (content does not branch and negaxis equals
the branch depth), reduce_next, sort_next and argsort_next fail with the
unrecoverable runtime-error invariant message whenever offsets.length - 1
differs from parents.length, and when the two are equal the check raises no
error and each method returns a result. -/
theorem nonlocal_length_check (ops : ContentOps R C) (offsets : List Int)
    (content : C) (reducer : R) (negaxis : Int) (starts parents : List Int)
    (outlength : Nat) (mask keepdims ascending stable : Bool)
    (hb : (ops.branchDepth content).1 = false)
    (hd : negaxis = (ops.branchDepth content).2 + 1) :
    ((offsets.length : Int) - 1 ≠ (parents.length : Int) →
      reduce_next64 ops offsets content reducer negaxis starts parents
          outlength mask keepdims =
        .error (.runtimeError "offsets_.length() - 1 != parents.length()") ∧
      sort_next64 ops offsets content negaxis starts parents outlength
          ascending stable keepdims =
        .error (.runtimeError "offsets_.length() - 1 != parents.length()") ∧
      argsort_next64 ops offsets content negaxis starts parents outlength
          ascending stable keepdims =
        .error (.runtimeError "offsets_.length() - 1 != parents.length()")) ∧
    ((offsets.length : Int) - 1 = (parents.length : Int) →
      (∃ o, reduce_next64 ops offsets content reducer negaxis starts parents
          outlength mask keepdims = .ok o) ∧
      (∃ o, sort_next64 ops offsets content negaxis starts parents outlength
          ascending stable keepdims = .ok o) ∧
      (∃ o, argsort_next64 ops offsets content negaxis starts parents
          outlength ascending stable keepdims = .ok o)) := by
  constructor
  · intro hne
    refine ⟨?_, ?_, ?_⟩
    · rw [reduce_next64, if_pos ⟨hb, hd⟩, if_pos hne]
    · rw [sort_next64, if_pos ⟨hb, hd⟩, if_pos hne]
    · rw [argsort_next64, if_pos ⟨hb, hd⟩, if_pos hne]
  · intro heq
    refine ⟨?_, ?_, ?_⟩
    · rw [reduce_next64, if_pos ⟨hb, hd⟩, if_neg (not_ne_iff.mpr heq)]
      exact ⟨_, rfl⟩
    · rw [sort_next64, if_pos ⟨hb, hd⟩, if_neg (not_ne_iff.mpr heq)]
      exact ⟨_, rfl⟩
    · rw [argsort_next64, if_pos ⟨hb, hd⟩, if_neg (not_ne_iff.mpr heq)]
      exact ⟨_, rfl⟩

/-- Witness for C3 at concrete inputs: two sublists with a single parent is a
mismatch and all three methods throw; one sublist with a single parent passes
the check and each method returns a result. -/
theorem nonlocal_length_check_witness :
    (reduce_next64 listOps [0, 1, 2] [5, 6] () 2 [] [0] 1 false false =
      .error (.runtimeError "offsets_.length() - 1 != parents.length()") ∧
     sort_next64 listOps [0, 1, 2] [5, 6] 2 [] [0] 1 true true false =
      .error (.runtimeError "offsets_.length() - 1 != parents.length()") ∧
     argsort_next64 listOps [0, 1, 2] [5, 6] 2 [] [0] 1 true true false =
      .error (.runtimeError "offsets_.length() - 1 != parents.length()")) ∧
    ((∃ o, reduce_next64 listOps [0, 1] [5] () 2 [] [0] 1 false false =
        .ok o) ∧
     (∃ o, sort_next64 listOps [0, 1] [5] 2 [] [0] 1 true true false =
        .ok o) ∧
     (∃ o, argsort_next64 listOps [0, 1] [5] 2 [] [0] 1 true true false =
        .ok o)) :=
  ⟨(nonlocal_length_check listOps [0, 1, 2] [5, 6] () 2 [] [0] 1 false false
      true true rfl (by decide)).1 (by decide),
   (nonlocal_length_check listOps [0, 1] [5] () 2 [] [0] 1 false false
      true true rfl (by decide)).2 (by decide)⟩

/-- C1: in the non-local branch (content does not branch and negaxis equals
the branch depth), reduce_next carries the content by the nextcarry
permutation, recurses into the content reduce_next with negaxis - 1,
nextstarts, nextparents and outlength maxnextparents + 1, assembles the
result as a ListArray64 of length outlength whose starts/stops come from the
outstartsstops kernel applied to distincts and gaps, and wraps that list in a
size-1 regular layer exactly when keepdims is set. -/
theorem reduce_next_nonlocal_spec (ops : ContentOps R C) (offsets : List Int)
    (content : C) (reducer : R) (negaxis : Int) (starts parents : List Int)
    (outlength : Nat) (mask keepdims : Bool)
    (hb : (ops.branchDepth content).1 = false)
    (hd : negaxis = (ops.branchDepth content).2 + 1)
    (hlen : (offsets.length : Int) - 1 = (parents.length : Int)) :
    let maxcount :=
      (awkward_listoffsetarray_reduce_nonlocal_maxcount_offsetscopy_64
        offsets).1.toNat
    let nextcarry := nonlocal_nextcarry offsets maxcount
    let nextparents := nonlocal_nextparents offsets parents maxcount
    let maxnextparents := nonlocal_maxnextparents nextparents
    let nextstarts := awkward_listoffsetarray_reduce_nonlocal_nextstarts_64
      nextparents maxnextparents
    let outcontent := ops.reduceNext (ops.carry content nextcarry) reducer
      (negaxis - 1) nextstarts nextparents (maxnextparents + 1) mask false
    let oss := awkward_listoffsetarray_reduce_nonlocal_outstartsstops_64
      (nonlocal_distincts offsets parents maxcount outlength)
      (awkward_listoffsetarray_reduce_nonlocal_findgaps_64 parents outlength)
      maxcount outlength
    (keepdims = false →
      reduce_next64 ops offsets content reducer negaxis starts parents
          outlength mask keepdims =
        .ok (OutContent.listArray64 oss.1 oss.2
          (OutContent.base outcontent))) ∧
    (keepdims = true →
      reduce_next64 ops offsets content reducer negaxis starts parents
          outlength mask keepdims =
        .ok (OutContent.regularArray
          (OutContent.listArray64 oss.1 oss.2 (OutContent.base outcontent))
          1)) ∧
    oss.1.length = outlength ∧
    oss.2.length = outlength := by
  intro maxcount nextcarry nextparents maxnextparents nextstarts outcontent oss
  refine ⟨?_, ?_, ?_, ?_⟩
  · intro hk
    subst hk
    rw [reduce_next64, if_pos ⟨hb, hd⟩, if_neg (not_ne_iff.mpr hlen)]
    rfl
  · intro hk
    subst hk
    rw [reduce_next64, if_pos ⟨hb, hd⟩, if_neg (not_ne_iff.mpr hlen)]
    rfl
  · exact (outstartsstops_length _ _ _ _).1
  · exact (outstartsstops_length _ _ _ _).2

/-- Witness for C1 at a concrete input: offsets [0, 2, 3] with parents
[0, 1], outlength 2, negaxis 2 over a flat content; the non-local assembly
evaluates to a two-entry ListArray64, and keepdims wraps it in a size-1
regular layer. -/
theorem reduce_next_nonlocal_spec_witness :
    reduce_next64 listOps [0, 2, 3] [1, 2, 3] () 2 [] [0, 1] 2 false false =
      .ok (OutContent.listArray64 [0, 2] [2, 3]
        (OutContent.base [1, 3, 2])) ∧
    reduce_next64 listOps [0, 2, 3] [1, 2, 3] () 2 [] [0, 1] 2 false true =
      .ok (OutContent.regularArray
        (OutContent.listArray64 [0, 2] [2, 3] (OutContent.base [1, 3, 2]))
        1) :=
  ⟨((reduce_next_nonlocal_spec listOps [0, 2, 3] [1, 2, 3] () 2 [] [0, 1] 2
      false false rfl (by decide) (by decide)).1 rfl).trans (by rfl),
   ((reduce_next_nonlocal_spec listOps [0, 2, 3] [1, 2, 3] () 2 [] [0, 1] 2
      false true rfl (by decide) (by decide)).2.1 rfl).trans (by rfl)⟩

/-- C2: in the local branch (the target axis lies strictly below this list
level), reduce_next returns a ListOffsetArray64 whose outoffsets have length
outlength + 1 and satisfy outoffsets[j+1] - outoffsets[j] = count of
parents[k] = j (parents non-decreasing), with the content trimmed to the
global range and reduced recursively at the same negaxis using nextparents
that assign parent i to every element of sublist i; in particular the output
list length equals outlength. -/
theorem reduce_next_local_spec (ops : ContentOps R C) (offsets : List Int)
    (content : C) (reducer : R) (negaxis : Int) (starts parents : List Int)
    (outlength : Nat) (mask keepdims : Bool)
    (hbranch : ¬((ops.branchDepth content).1 = false ∧
      negaxis = (ops.branchDepth content).2 + 1))
    (hmono : isNonDecreasing parents = true) :
    let gs := awkward_listoffsetarray_reduce_global_startstop_64 offsets
    let nextparents :=
      awkward_listoffsetarray_reduce_local_nextparents_64 offsets
    let outcontent := ops.reduceNext
      (ops.getitemRangeNowrap content gs.1 gs.2) reducer negaxis
      (make_starts offsets) nextparents ((offsets.length : Int) - 1) mask
      keepdims
    let outoffsets :=
      awkward_listoffsetarray_reduce_local_outoffsets_64 parents outlength
    reduce_next64 ops offsets content reducer negaxis starts parents outlength
        mask keepdims =
      .ok (OutContent.listOffsetArray64 outoffsets
        (OutContent.base outcontent)) ∧
    outoffsets.length = outlength + 1 ∧
    ((outoffsets.length : Int)) - 1 = (outlength : Int) ∧
    (∀ j : Nat, j < outlength →
      outoffsets.getD (j + 1) 0 - outoffsets.getD j 0 =
        ((parents.filter (fun p => p = (j : Int))).length : Int)) ∧
    (∀ i k : Nat, i < offsets.length - 1 →
      k < (sublistLens offsets).getD i 0 →
      nextparents.getD (((sublistLens offsets).take i).sum + k) 0 =
        (i : Int)) := by
  intro gs nextparents outcontent outoffsets
  have hlen : (awkward_listoffsetarray_reduce_local_outoffsets_64 parents
      outlength).length = outlength + 1 := by
    simp [awkward_listoffsetarray_reduce_local_outoffsets_64]
  refine ⟨?_, hlen, ?_, ?_, ?_⟩
  · rw [reduce_next64, if_neg hbranch]
  · rw [show outoffsets.length = outlength + 1 from hlen]
    push_cast
    ring
  · intro j hj
    show (awkward_listoffsetarray_reduce_local_outoffsets_64 parents
        outlength).getD (j + 1) 0 -
      (awkward_listoffsetarray_reduce_local_outoffsets_64 parents
        outlength).getD j 0 = _
    rw [awkward_listoffsetarray_reduce_local_outoffsets_64,
      getD_range_map _ _ _ _ (by omega), getD_range_map _ _ _ _ (by omega)]
    have hc := count_filter_lt_succ parents (j : Int)
    push_cast
    omega
  · intro i k hi hk
    have hi' : i < (sublistLens offsets).length := by
      simpa [sublistLens] using hi
    show (awkward_listoffsetarray_reduce_local_nextparents_64 offsets).getD
      (((sublistLens offsets).take i).sum + k) 0 = (i : Int)
    rw [awkward_listoffsetarray_reduce_local_nextparents_64]
    simpa using localNextparentsAux_getD (sublistLens offsets) 0 i k hi' hk

/-- Witness for C2 at a concrete input: offsets [0, 2, 3] reduced locally
(negaxis 1 below this level) with non-decreasing parents [0, 0, 1] and
outlength 2 yields outoffsets [0, 2, 3] around the recursively reduced
content, and the outoffsets differences count the parents. -/
theorem reduce_next_local_spec_witness :
    isNonDecreasing [0, 0, 1] = true ∧
    reduce_next64 listOps [0, 2, 3] [1, 2, 3] () 1 [] [0, 0, 1] 2 false
        false =
      .ok (OutContent.listOffsetArray64 [0, 2, 3]
        (OutContent.base [1, 2, 3])) ∧
    (awkward_listoffsetarray_reduce_local_outoffsets_64 [0, 0, 1] 2).getD 1 0
        - (awkward_listoffsetarray_reduce_local_outoffsets_64
            [0, 0, 1] 2).getD 0 0 =
      ((([0, 0, 1] : List Int).filter (fun p => p = (0 : Int))).length :
        Int) :=
  ⟨by decide,
   ((reduce_next_local_spec listOps [0, 2, 3] [1, 2, 3] () 1 [] [0, 0, 1] 2
      false false (by decide) (by decide)).1).trans (by rfl),
   (reduce_next_local_spec listOps [0, 2, 3] [1, 2, 3] () 1 [] [0, 0, 1] 2
      false false (by decide) (by decide)).2.2.2.1 0 (by decide)⟩

/-- C5: when sort_next and argsort_next reach the target axis (the non-local
branch), they apply local_preparenext to nextcarry to obtain the inverse
permutation outcarry, carry the sorted (resp. argsorted) content by outcarry,
and wrap the result in a ListOffsetArray64 with the original offsets, so
every output sublist spans exactly the offsets range of the corresponding
input sublist (the jagged structure is preserved, only the order within each
sublist changes). -/
theorem sort_next_outcarry_spec (ops : ContentOps R C) (offsets : List Int)
    (content : C) (negaxis : Int) (starts parents : List Int)
    (outlength : Nat) (ascending stable keepdims : Bool)
    (hb : (ops.branchDepth content).1 = false)
    (hd : negaxis = (ops.branchDepth content).2 + 1)
    (hlen : (offsets.length : Int) - 1 = (parents.length : Int)) :
    let maxcount :=
      (awkward_listoffsetarray_reduce_nonlocal_maxcount_offsetscopy_64
        offsets).1.toNat
    let nextcarry := nonlocal_nextcarry offsets maxcount
    let nextparents := nonlocal_nextparents offsets parents maxcount
    let maxnextparents := nonlocal_maxnextparents nextparents
    let nextstarts := awkward_listoffsetarray_reduce_nonlocal_nextstarts_64
      nextparents maxnextparents
    let nextcontent := ops.carry content nextcarry
    let outcarry := awkward_listoffsetarray_local_preparenext_64 nextcarry
    let sout := OutContent.listOffsetArray64 offsets (OutContent.base
      (ops.carry (ops.sortNext nextcontent (negaxis - 1) nextstarts
        nextparents (ops.length nextcontent) ascending stable false)
        outcarry))
    let aout := OutContent.listOffsetArray64 offsets (OutContent.base
      (ops.carry (ops.argsortNext nextcontent (negaxis - 1) nextstarts
        nextparents (maxnextparents + 1) ascending stable false) outcarry))
    (keepdims = false →
      sort_next64 ops offsets content negaxis starts parents outlength
          ascending stable keepdims = .ok sout ∧
      argsort_next64 ops offsets content negaxis starts parents outlength
          ascending stable keepdims = .ok aout) ∧
    (keepdims = true →
      sort_next64 ops offsets content negaxis starts parents outlength
          ascending stable keepdims =
        .ok (OutContent.regularArray sout ((offsets.length : Int) - 1)) ∧
      argsort_next64 ops offsets content negaxis starts parents outlength
          ascending stable keepdims =
        .ok (OutContent.regularArray aout ((offsets.length : Int) - 1))) := by
  intro maxcount nextcarry nextparents maxnextparents nextstarts nextcontent
    outcarry sout aout
  constructor
  · intro hk
    subst hk
    constructor
    · rw [sort_next64, if_pos ⟨hb, hd⟩, if_neg (not_ne_iff.mpr hlen)]
      rfl
    · rw [argsort_next64, if_pos ⟨hb, hd⟩, if_neg (not_ne_iff.mpr hlen)]
      rfl
  · intro hk
    subst hk
    constructor
    · rw [sort_next64, if_pos ⟨hb, hd⟩, if_neg (not_ne_iff.mpr hlen)]
      rfl
    · rw [argsort_next64, if_pos ⟨hb, hd⟩, if_neg (not_ne_iff.mpr hlen)]
      rfl

/-- Witness for C5 at a concrete input: offsets [0, 2, 3] with parents
[0, 1]; the output keeps the original offsets [0, 2, 3] around the carried
content, for sort and argsort alike. -/
theorem sort_next_outcarry_spec_witness :
    sort_next64 listOps [0, 2, 3] [1, 2, 3] 2 [] [0, 1] 2 true true false =
      .ok (OutContent.listOffsetArray64 [0, 2, 3]
        (OutContent.base [1, 2, 3])) ∧
    argsort_next64 listOps [0, 2, 3] [1, 2, 3] 2 [] [0, 1] 2 true true
        false =
      .ok (OutContent.listOffsetArray64 [0, 2, 3]
        (OutContent.base [1, 2, 3])) :=
  ⟨(((sort_next_outcarry_spec listOps [0, 2, 3] [1, 2, 3] 2 [] [0, 1] 2 true
      true false rfl (by decide) (by decide)).1 rfl).1).trans (by rfl),
   (((sort_next_outcarry_spec listOps [0, 2, 3] [1, 2, 3] 2 [] [0, 1] 2 true
      true false rfl (by decide) (by decide)).1 rfl).2).trans (by rfl)⟩

/-- Any successful broadcast_tooffsets64 yields an int64 array whose offsets
start at zero (the entry check enforces it). -/
theorem broadcast_tooffsets64_ok_canonical (ops : ContentOps R C)
    (a : ListOffsetArray C) (offsets : List Int) (b : ListOffsetArray C)
    (h : broadcast_tooffsets64 ops a offsets = .ok b) :
    b.form = .i64 ∧ b.offsets.headI = 0 := by
  unfold broadcast_tooffsets64 at h
  split at h
  · cases h
  · next hc =>
    split at h
    · cases h
    · cases h
      push_neg at hc
      exact ⟨rfl, hc.2⟩

/-- Any successful toListOffsetArray64 with start_at_zero yields the
i64-canonical compact form: width i64 and offsets starting at zero. -/
theorem toListOffsetArray64_ok_canonical (ops : ContentOps R C)
    (a : ListOffsetArray C) (b : ListOffsetArray C)
    (h : toListOffsetArray64 ops a true = .ok b) :
    b.form = .i64 ∧ b.offsets.headI = 0 := by
  unfold toListOffsetArray64 at h
  split at h
  · next hc =>
    cases h
    refine ⟨hc.1, ?_⟩
    rcases hc.2 with h2 | h2
    · simp at h2
    · exact h2
  · exact broadcast_tooffsets64_ok_canonical ops a _ b h

/-- C4: for a ListOffsetArray of 32-bit signed or unsigned offset width,
reduce_next returns the same result as first converting the array with
toListOffsetArray64(start_at_zero = true) - which yields the i64-canonical
compact form - and calling reduce_next on that form with the same
arguments. -/
theorem reduce_next_width_refinement (ops : ContentOps R C)
    (a : ListOffsetArray C) (reducer : R) (negaxis : Int)
    (starts parents : List Int) (outlength : Nat) (mask keepdims : Bool)
    (h : a.form = .i32 ∨ a.form = .u32) :
    reduce_next ops a reducer negaxis starts parents outlength mask
        keepdims =
      Except.bind (toListOffsetArray64 ops a true) (fun b =>
        reduce_next ops b reducer negaxis starts parents outlength mask
          keepdims) ∧
    (∀ b, toListOffsetArray64 ops a true = .ok b →
      b.form = .i64 ∧ b.offsets.headI = 0) := by
  refine ⟨?_, fun b hb => toListOffsetArray64_ok_canonical ops a b hb⟩
  obtain ⟨form, offs, c⟩ := a
  have hform : form = .i32 ∨ form = .u32 := h
  cases htl : toListOffsetArray64 ops ⟨form, offs, c⟩ true with
  | error e =>
      rcases hform with hf | hf <;> subst hf <;>
        simp [reduce_next, htl, Except.bind]
  | ok b =>
      have hb := toListOffsetArray64_ok_canonical ops ⟨form, offs, c⟩ b htl
      obtain ⟨fb, ob, cb⟩ := b
      have hfb : fb = .i64 := hb.1
      subst hfb
      rcases hform with hf | hf <;> subst hf <;>
        simp [reduce_next, htl, Except.bind]

/-- Witness for C4 at a concrete input: a 32-bit array with offsets [1, 3]
reduces exactly as its i64-canonical compact form (offsets [0, 2] with the
content carried accordingly). -/
theorem reduce_next_width_refinement_witness :
    reduce_next listOps ⟨.i32, [1, 3], [9, 8, 7]⟩ () 2 [] [0] 1 false
        false =
      Except.bind (toListOffsetArray64 listOps ⟨.i32, [1, 3], [9, 8, 7]⟩
        true) (fun b =>
          reduce_next listOps b () 2 [] [0] 1 false false) ∧
    toListOffsetArray64 listOps ⟨.i32, [1, 3], [9, 8, 7]⟩ true =
      .ok ⟨.i64, [0, 2], [8, 7]⟩ :=
  ⟨(reduce_next_width_refinement listOps ⟨.i32, [1, 3], [9, 8, 7]⟩ () 2 []
      [0] 1 false false (Or.inl rfl)).1,
   by rfl⟩

end Awkward
